import Mathlib

/-!
Shallow embedding of the larg4 particle-list action service
(src/larg4/pluginActions/ParticleListAction_service.cxx).

Machine doubles are modelled as rationals, Geant4 callback snapshots as
records carrying exactly the fields the service reads.  The external
collaborators that the translated source file only calls into — the
sim::ParticleList registry, the ParticleInfo slot declared in the service
header, and the sim::NoParticleId sentinel — are modelled from the
specification, each marked "Modelled from the spec" below.
-/

attribute [local semireducible] Rat.add Rat.sub Rat.mul Rat.inv Rat.ofScientific

namespace Larg4

/-- Four-component vector (x, y, z, t) or (px, py, pz, E). -/
abbrev Vec4 : Type := ℚ × ℚ × ℚ × ℚ

/-- Three-component vector. -/
abbrev Vec3 : Type := ℚ × ℚ × ℚ

/-- CLHEP length unit: cm, in native units (mm = 1). -/
def CLHEPcm : ℚ := 10

/-- CLHEP time unit: ns, in native units (ns = 1). -/
def CLHEPns : ℚ := 1

/-- CLHEP energy unit: GeV, in native units (MeV = 1). -/
def CLHEPGeV : ℚ := 1000

/-- Modelled from the spec: sim::NoParticleId, the "no particle" sentinel
used by the service for a current-track id that designates no stored
particle (lardataobj's definition, the most negative 32-bit integer, is not
part of the translated source). -/
def NoParticleId : Int := -2147483648

/-- Check whether the list s starts with the pattern pat. -/
def charsStartWith : List Char → List Char → Bool
  | [], _ => true
  | _ :: _, [] => false
  | a :: as, b :: bs => a == b && charsStartWith as bs

/-- Substring search over character lists. -/
def charsHas (pat : List Char) : List Char → Bool
  | [] => charsStartWith pat []
  | b :: bs => charsStartWith pat (b :: bs) || charsHas pat bs

/-- std::string::find(pat) != npos, i.e. substring containment. -/
def strFind (s pat : String) : Bool := charsHas pat.toList s.toList

/-- EM-shower creation-process test from preUserTrackingAction (source lines
171-181): the creation process name is matched against the fixed marker
substrings for pair production, Compton scattering, bremsstrahlung,
photoelectric effect, ionization and annihilation. -/
def isEMShowerProcess (process_name : String) : Bool :=
  strFind process_name "conv" || strFind process_name "LowEnConversion" ||
  strFind process_name "Pair" || strFind process_name "compt" ||
  strFind process_name "Compt" || strFind process_name "Brem" ||
  strFind process_name "phot" || strFind process_name "Photo" ||
  strFind process_name "Ion" || strFind process_name "annihil"

/-- Modelled from the spec: the ParticleRecord (simb::MCParticle) fields the
service reads and writes; simb is an external collaborator not part of the
translated source. -/
structure MCParticle where
  trackId : Int
  pdgCode : Int
  process : String
  motherId : Int
  mass : ℚ
  polarization : Vec3
  weight : ℚ
  endProcess : String
  trajectory : List (Vec4 × Vec4 × String)
  daughters : List Int
  deriving DecidableEq

/-- Constructor call simb::MCParticle(trackID, pdgCode, process_name,
parentID, mass) as used at source line 253, followed by SetPolarization. -/
def mkMCParticle (trackId pdgCode : Int) (process : String) (motherId : Int)
    (mass : ℚ) (polarization : Vec3) : MCParticle :=
  ⟨trackId, pdgCode, process, motherId, mass, polarization, 1, "", [], []⟩

/-- Modelled from the spec: one registry slot of the sim::ParticleList.  An
archived entry has payload none but keeps its mother id, so ancestry
queries still work after the payload is released. -/
structure PLEntry where
  trackId : Int
  motherId : Int
  payload : Option MCParticle
  deriving DecidableEq

/-- Modelled from the spec: the sim::ParticleList registry, a map from track
id to record-or-archived-marker with unique keys kept in ascending order
(std::map iteration order). -/
structure ParticleList where
  entries : List PLEntry
  deriving DecidableEq

/-- Ordered unique insertion of an entry (std::map key semantics). -/
def plInsertEntry : List PLEntry → PLEntry → List PLEntry
  | [], e => [e]
  | x :: xs, e =>
    if e.trackId < x.trackId then e :: x :: xs
    else if e.trackId = x.trackId then e :: xs
    else x :: plInsertEntry xs e

/-- sim::ParticleList::Add: store a record under its own track id. -/
def plAdd (pl : ParticleList) (p : MCParticle) : ParticleList :=
  ⟨plInsertEntry pl.entries ⟨p.trackId, p.motherId, some p⟩⟩

/-- sim::ParticleList::find: first entry with the given key. -/
def plFind (pl : ParticleList) (tid : Int) : Option PLEntry :=
  pl.entries.find? (fun e => e.trackId = tid)

/-- Modelled from the spec: sim::ParticleList::KnownParticle — true exactly
for a live (non-archived) registry key; archived entries are excluded. -/
def KnownParticle (pl : ParticleList) (tid : Int) : Bool :=
  pl.entries.any (fun e => e.trackId = tid && e.payload.isSome)

/-- sim::ParticleList::GetMotherOf: the stored mother id of a key, available
for archived entries as well. -/
def GetMotherOf (pl : ParticleList) (tid : Int) : Option Int :=
  (plFind pl tid).map (·.motherId)

/-- sim::ParticleList::Archive: release the payload of a key but keep the
key and its mother id. -/
def plArchive (pl : ParticleList) (tid : Int) : ParticleList :=
  ⟨pl.entries.map (fun e => if e.trackId = tid then ⟨e.trackId, e.motherId, none⟩ else e)⟩

/-- Replace the payload of the first entry with the given key (writing
through the iterator obtained from find). -/
def plSetPayloadL : List PLEntry → Int → MCParticle → List PLEntry
  | [], _, _ => []
  | e :: es, tid, p =>
    if e.trackId = tid then ⟨e.trackId, e.motherId, some p⟩ :: es
    else e :: plSetPayloadL es tid p

/-- Registry-level payload replacement. -/
def plSetPayload (pl : ParticleList) (tid : Int) (p : MCParticle) : ParticleList :=
  ⟨plSetPayloadL pl.entries tid p⟩

/-- Daughter set of a live registry key (empty for archived or absent keys). -/
def daughtersOf (pl : ParticleList) (tid : Int) : List Int :=
  match plFind pl tid with
  | some e =>
    match e.payload with
    | some p => p.daughters
    | none => []
  | none => []

/-- Track ids of all registry entries, in iteration order. -/
def plTrackIds (pl : ParticleList) : List Int := pl.entries.map (·.trackId)

/-- Modelled from the spec: the CurrentParticleSlot (ParticleInfo in the
service header): the in-progress record, if any, plus the pending keep
decision; clearing resets both. -/
structure ParticleInfo where
  particle : Option MCParticle
  keep : Bool
  deriving DecidableEq

/-- ParticleInfo::clear: no particle, keep decision reset to false. -/
def clearedSlot : ParticleInfo := ⟨none, false⟩

/-- Configuration fixed at construction (source lines 66-68) plus the
optional external keep-filter consulted through fFilter. -/
structure Config where
  fenergyCut : ℚ
  fstoreTrajectories : Bool
  fKeepEMShowerDaughters : Bool
  fFilter : Option (Vec4 → Bool)

/-- Mutable service state: the run-level track-id offset, the current track
id, the parent-id map, the registry and the current-particle slot. -/
structure GState where
  fTrackIDOffset : Int
  fCurrentTrackID : Int
  fParentIDMap : List (Int × Int)
  fparticleList : ParticleList
  fCurrentParticle : ParticleInfo
  deriving DecidableEq

/-- std::map assignment fParentIDMap[k] = v (ordered unique keys). -/
def mapInsert : List (Int × Int) → Int → Int → List (Int × Int)
  | [], k, v => [(k, v)]
  | p :: ps, k, v =>
    if k < p.1 then (k, v) :: p :: ps
    else if k = p.1 then (k, v) :: ps
    else p :: mapInsert ps k v

/-- std::map::find on the parent-id map. -/
def mapLookup (m : List (Int × Int)) (k : Int) : Option Int :=
  (m.find? (fun pr => pr.1 = k)).map (·.2)

/-- Loop body of GetParentage (source lines 102-122), indexed by the number
of successful lookups still allowed.  The C++ loop is unbounded; fuel equal
to the number of map entries is sufficient under the caller's no-cycle
contract (proved below). -/
def gpRun (m : List (Int × Int)) : Nat → Int → Int → Option Int
  | 0, trackid, parentid =>
    match mapLookup m trackid with
    | none => some parentid
    | some _ => none
  | Nat.succ n, trackid, parentid =>
    match mapLookup m trackid with
    | none => some parentid
    | some v => gpRun m n v v

/-- ParticleListActionService::GetParentage: follow the parent-id map from
trackid until a key is absent, starting from the sim::NoParticleId
sentinel; the last value found is returned. -/
def GetParentage (m : List (Int × Int)) (trackid : Int) : Int :=
  (gpRun m m.length trackid NoParticleId).getD NoParticleId

/-- Snapshot of the G4Track fields read by preUserTrackingAction.  The
creator process is optional, mirroring the raw G4VProcess pointer returned
by GetCreatorProcess; the two booleans mirror the GetPrimaryParticle
pointer and the dynamic_cast to g4b::PrimaryParticleInformation. -/
structure G4Track where
  trackID : Int
  parentID : Int
  pdgCode : Int
  hasPrimaryParticle : Bool
  hasPrimaryParticleInformation : Bool
  creatorProcess : Option String
  kineticEnergy : ℚ
  dynamicMass : ℚ
  polarization : Vec3
  deriving DecidableEq

/-- Shared tail of preUserTrackingAction (source lines 248-264): build the
record, decide keep without a filter, set polarization, store the record in
the registry and in the current-particle slot. -/
def addCurrentParticle (cfg : Config) (st : GState) (trackID pdgCode : Int)
    (process_name : String) (parentID : Int) (track : G4Track) : GState :=
  let mass := track.dynamicMass / CLHEPGeV
  let p := mkMCParticle trackID pdgCode process_name parentID mass track.polarization
  let keep := if cfg.fFilter.isNone then true else false
  { st with
    fCurrentParticle := ⟨some p, keep⟩,
    fparticleList := plAdd st.fparticleList p }

/-- ParticleListActionService::preUserTrackingAction (source lines
126-265).  The error result models the unguarded dereference of the
creator-process pointer for a non-primary track. -/
def preUserTrackingAction (cfg : Config) (st : GState) (track : G4Track) :
    Except Unit GState :=
  let pdgCode := track.pdgCode
  let trackID := track.trackID + st.fTrackIDOffset
  let parentID := track.parentID + st.fTrackIDOffset
  let st := { st with fCurrentTrackID := trackID }
  if track.hasPrimaryParticle then
    if track.hasPrimaryParticleInformation then
      Except.ok (addCurrentParticle cfg st trackID pdgCode "primary" 0 track)
    else
      Except.ok (addCurrentParticle cfg st trackID pdgCode "unknown" parentID track)
  else
    match track.creatorProcess with
    | none => Except.error ()
    | some process_name =>
      if cfg.fKeepEMShowerDaughters = false ∧ isEMShowerProcess process_name = true then
        let m' := mapInsert st.fParentIDMap trackID parentID
        let ct := -1 * GetParentage m' trackID
        let ct := if KnownParticle st.fparticleList ct = false then NoParticleId else ct
        Except.ok { st with
          fParentIDMap := m',
          fCurrentTrackID := ct,
          fCurrentParticle := clearedSlot }
      else if track.kineticEnergy < cfg.fenergyCut then
        let m' := mapInsert st.fParentIDMap trackID parentID
        let ct := -1 * GetParentage m' trackID
        Except.ok { st with
          fParentIDMap := m',
          fCurrentTrackID := ct,
          fCurrentParticle := clearedSlot }
      else
        if KnownParticle st.fparticleList parentID = false then
          let m' := mapInsert st.fParentIDMap trackID parentID
          let pid := GetParentage m' parentID
          if KnownParticle st.fparticleList pid = false then
            Except.ok (addCurrentParticle cfg { st with fParentIDMap := m' }
              trackID pdgCode process_name parentID track)
          else
            Except.ok (addCurrentParticle cfg { st with fParentIDMap := m' }
              trackID pdgCode process_name pid track)
        else
          Except.ok (addCurrentParticle cfg st trackID pdgCode process_name parentID track)

/-- LArSoft four-position from a step point: cm for space, ns for time. -/
def fourPos (pos : Vec3) (time : ℚ) : Vec4 :=
  (pos.1 / CLHEPcm, pos.2.1 / CLHEPcm, pos.2.2 / CLHEPcm, time / CLHEPns)

/-- LArSoft four-momentum from a step point: GeV for momentum and energy. -/
def fourMom (mom : Vec3) (energy : ℚ) : Vec4 :=
  (mom.1 / CLHEPGeV, mom.2.1 / CLHEPGeV, mom.2.2 / CLHEPGeV, energy / CLHEPGeV)

/-- ParticleListActionService::AddPointToCurrentParticle (source lines
472-483): append a trajectory point and, while the keep decision is still
false, consult the external keep-filter with the appended position. -/
def AddPointToCurrentParticle (cfg : Config) (slot : ParticleInfo)
    (pos mom : Vec4) (process : String) : ParticleInfo :=
  match slot.particle with
  | none => slot
  | some p =>
    let p' := { p with trajectory := p.trajectory ++ [(pos, mom, process)] }
    let keep' :=
      if slot.keep then slot.keep
      else
        match cfg.fFilter with
        | some f => f pos
        | none => slot.keep
    ⟨some p', keep'⟩

/-- Snapshot of the G4Step fields read by userSteppingAction.  The track's
global time at stepping equals the post-step point's time, so mutating the
post-step time is what subsequent steps observe. -/
structure G4Step where
  preTime : ℚ
  postTime : ℚ
  prePos : Vec3
  postPos : Vec3
  preMom : Vec3
  postMom : Vec3
  preEnergy : ℚ
  postEnergy : ℚ
  stepLength : ℚ
  trackVelocity : ℚ
  trackPdg : Int
  postProcessName : String
  deriving DecidableEq

/-- Voxel-bookkeeping processes excluded from trajectories (source line
349). -/
def ignoredProcess (process : String) : Bool :=
  strFind process "LArVoxel" || strFind process "OpDetReadout"

/-- Defensive photon re-timing (source lines 298-308): for a zero-pdg track
whose reported step velocity disagrees with the track velocity beyond 1e-4,
overwrite the post-step global time with the time back-computed from the
step length and the track velocity. -/
def retimePhotonStep (step : G4Step) : G4Step :=
  let globalTime := step.postTime
  let velocityG4 := step.trackVelocity
  let velocityStep := step.stepLength / (step.postTime - step.preTime)
  if step.trackPdg = 0 ∧ |velocityG4 - velocityStep| > 1 / 10000 then
    { step with
      postTime := globalTime - (step.postTime - step.preTime) + step.stepLength / velocityG4 }
  else step

/-- ParticleListActionService::userSteppingAction (source lines 292-385):
with no current particle the call is a no-op; otherwise the photon
re-timing runs first, a Start point is synthesized from the pre-step point
on the first step, and the post-step point is appended unless trajectory
storage is off or the process is voxel bookkeeping.  The returned step
carries the (possibly re-timed) post-step global time that later steps
observe. -/
def userSteppingAction (cfg : Config) (slot : ParticleInfo) (step : G4Step) :
    ParticleInfo × G4Step :=
  match slot.particle with
  | none => (slot, step)
  | some p =>
    let step := retimePhotonStep step
    let slot :=
      if p.trajectory.length = 0 then
        AddPointToCurrentParticle cfg slot (fourPos step.prePos step.preTime)
          (fourMom step.preMom step.preEnergy) "Start"
      else slot
    let slot :=
      if cfg.fstoreTrajectories = true ∧ ignoredProcess step.postProcessName = false then
        AddPointToCurrentParticle cfg slot (fourPos step.postPos step.postTime)
          (fourMom step.postMom step.postEnergy) step.postProcessName
      else slot
    (slot, step)

/-- UpdateDaughterInformation::operator() (source lines 398-431): look up
the mother of one registry key; skip non-positive mothers, absent mothers
and archived mothers; otherwise append the key to the mother's daughter
list. -/
def UpdateDaughterInformation (particleList : ParticleList) (particleID : Int) :
    ParticleList :=
  match GetMotherOf particleList particleID with
  | none => particleList
  | some parentID =>
    if parentID ≤ 0 then particleList
    else
      match plFind particleList parentID with
      | none => particleList
      | some parentEntry =>
        match parentEntry.payload with
        | none => particleList
        | some parent =>
          plSetPayload particleList parentID
            { parent with daughters := parent.daughters ++ [particleID] }

/-- Daughter-linking pass (source lines 496-501): std::for_each over all
registry entries; updates never add or remove keys, so iterating the
original key sequence is faithful. -/
def linkDaughters (pl : ParticleList) : ParticleList :=
  (plTrackIds pl).foldl UpdateDaughterInformation pl

/-- Highest track id over all registry entries, archived included (source
lines 460-462); starts from 0. -/
def highestID (pl : ParticleList) : Int :=
  pl.entries.foldl (fun h e => if e.trackId > h then e.trackId else h) 0

/-- ParticleListActionService::YieldList (source lines 455-468): advance the
run-level track-id offset past the highest stored id whenever the registry
is nonempty, and hand the registry over. -/
def YieldList (st : GState) : ParticleList × GState :=
  let hid := highestID st.fparticleList
  let st' :=
    if st.fparticleList.entries.length ≠ 0 then { st with fTrackIDOffset := hid + 1 }
    else st
  (st'.fparticleList, st')

/-- Inner association loop of endOfEventAction (source lines 512-519),
indexed by fuel: while the iterator has not reached the end, push the
pointed-to particle and record an association with the current truth
record.  As in the source, the iterator is never advanced by the body. -/
def assocLoop (mct : Nat) :
    Nat → List PLEntry → List MCParticle → List (Nat × Nat) →
    Option (List MCParticle × List (Nat × Nat))
  | _, [], partCol, assns => some (partCol, assns)
  | 0, _ :: _, _, _ => none
  | Nat.succ n, e :: rest, partCol, assns =>
    match e.payload with
    | none => none
    | some p =>
      let partCol' := partCol ++ [p]
      assocLoop mct n (e :: rest) partCol' (assns ++ [(mct, partCol'.length - 1)])

/-- Outer loops of endOfEventAction over the externally supplied truth
records (source lines 507-521). -/
def assocAllTruths (fuel : Nat) (entries : List PLEntry) :
    List Nat → List MCParticle × List (Nat × Nat) →
    Option (List MCParticle × List (Nat × Nat))
  | [], acc => some acc
  | t :: ts, acc =>
    match assocLoop t fuel entries acc.1 acc.2 with
    | none => none
    | some acc' => assocAllTruths fuel entries ts acc'

/-- ParticleListActionService::endOfEventAction (source lines 487-524): run
the daughter-linking pass, yield the registry (advancing the track-id
offset), then associate the yielded particles with every truth record.
Fuel bounds the iterations of the inner while loop; none means the loop was
still running when the fuel ran out. -/
def endOfEventAction (fuel : Nat) (st : GState) (truths : List Nat) :
    Option (List MCParticle × List (Nat × Nat) × GState) :=
  let pl := linkDaughters st.fparticleList
  let yielded := YieldList { st with fparticleList := pl }
  match assocAllTruths fuel yielded.1.entries truths ([], []) with
  | none => none
  | some acc => some (acc.1, acc.2, yielded.2)

/-- ParticleListActionService::beginOfEventAction (source lines 88-95). -/
def beginOfEventAction (st : GState) : GState :=
  { st with
    fCurrentParticle := clearedSlot,
    fparticleList := ⟨[]⟩,
    fParentIDMap := [],
    fCurrentTrackID := NoParticleId }

/-! Basic registry lemmas. -/

theorem mem_plInsertEntry_self (es : List PLEntry) (e : PLEntry) :
    e ∈ plInsertEntry es e := by
  induction es with
  | nil => simp [plInsertEntry]
  | cons x xs ih =>
    simp only [plInsertEntry]
    split
    · exact List.mem_cons_self e (x :: xs)
    · split
      · exact List.mem_cons_self e xs
      · exact List.mem_cons_of_mem x ih

theorem KnownParticle_plAdd (pl : ParticleList) (p : MCParticle) :
    KnownParticle (plAdd pl p) p.trackId = true := by
  simp only [KnownParticle, plAdd, List.any_eq_true]
  exact ⟨⟨p.trackId, p.motherId, some p⟩, mem_plInsertEntry_self pl.entries _, by simp⟩

/-- C10: for every non-primary track entering preUserTrackingAction, the
creator-process pointer is dereferenced with no null guard: the call fails
exactly when the creator process is missing, and under the precondition
that every secondary track carries a creator process the error branch is
unreachable. -/
theorem creator_process_deref (cfg : Config) (st : GState) (track : G4Track)
    (hp : track.hasPrimaryParticle = false) :
    (preUserTrackingAction cfg st track = Except.error () ↔ track.creatorProcess = none) := by
  simp only [preUserTrackingAction, hp, Bool.false_eq_true, if_false]
  cases h : track.creatorProcess with
  | none => simp
  | some process_name =>
    simp only [Option.some.injEq]
    constructor
    · intro hc
      exfalso
      split at hc
      · exact Except.noConfusion hc
      · split at hc
        · exact Except.noConfusion hc
        · split at hc
          · split at hc <;> exact Except.noConfusion hc
          · exact Except.noConfusion hc
    · intro hc
      exact Option.noConfusion hc

/-- C10 witness: a concrete non-primary track with no creator process makes
preUserTrackingAction fail. -/
theorem creator_process_deref_witness :
    (⟨2, 1, 11, false, false, none, 1, 1, (0, 0, 0)⟩ : G4Track).hasPrimaryParticle = false ∧
      preUserTrackingAction ⟨0, true, true, none⟩ ⟨0, NoParticleId, [], ⟨[]⟩, clearedSlot⟩
        ⟨2, 1, 11, false, false, none, 1, 1, (0, 0, 0)⟩ = Except.error () :=
  ⟨rfl, (creator_process_deref _ _ _ rfl).mpr rfl⟩

/-- C4: a track carrying primary-particle information is always admitted:
its mother id is forced to 0, its creation process name is set to
"primary", and it is stored in the registry, with no condition on its
kinetic energy, the configured energy cut, or the EM-shower configuration
(the statement quantifies over all of them). -/
theorem primary_track_admitted (cfg : Config) (st : GState) (track : G4Track)
    (hp : track.hasPrimaryParticle = true)
    (hi : track.hasPrimaryParticleInformation = true) :
    ∃ (st' : GState) (p : MCParticle),
      preUserTrackingAction cfg st track = Except.ok st' ∧
      st'.fCurrentParticle.particle = some p ∧
      (cfg.fFilter.isNone = true → st'.fCurrentParticle.keep = true) ∧
      p.trackId = track.trackID + st.fTrackIDOffset ∧
      p.motherId = 0 ∧
      p.process = "primary" ∧
      st'.fparticleList = plAdd st.fparticleList p ∧
      KnownParticle st'.fparticleList p.trackId = true ∧
      st'.fCurrentTrackID = p.trackId := by
  have h : preUserTrackingAction cfg st track =
      Except.ok (addCurrentParticle cfg { st with fCurrentTrackID := track.trackID + st.fTrackIDOffset }
        (track.trackID + st.fTrackIDOffset) track.pdgCode "primary" 0 track) := by
    simp only [preUserTrackingAction, hp, hi, if_true]
  refine ⟨_, _, h, rfl, ?_, rfl, rfl, rfl, rfl, ?_, rfl⟩
  · intro hf
    simp [addCurrentParticle, hf]
  · exact KnownParticle_plAdd _ _

/-- C4 witness: a concrete primary track whose kinetic energy (0.0005) lies
below the configured energy cut (0.001) is admitted anyway, with mother id
0 and process name "primary". -/
theorem primary_track_admitted_witness :
    (⟨1, 0, 13, true, true, none, 1 / 2000, 105, (0, 0, 0)⟩ : G4Track).hasPrimaryParticle = true ∧
      (1 : ℚ) / 2000 < 1 / 1000 ∧
      (∃ (st' : GState) (p : MCParticle),
        preUserTrackingAction ⟨1 / 1000, true, false, none⟩
            ⟨0, NoParticleId, [], ⟨[]⟩, clearedSlot⟩
            ⟨1, 0, 13, true, true, none, 1 / 2000, 105, (0, 0, 0)⟩ = Except.ok st' ∧
        st'.fCurrentParticle.particle = some p ∧
        ((⟨1 / 1000, true, false, none⟩ : Config).fFilter.isNone = true →
          st'.fCurrentParticle.keep = true) ∧
        p.trackId = 1 ∧ p.motherId = 0 ∧ p.process = "primary" ∧
        st'.fparticleList = plAdd (⟨[]⟩ : ParticleList) p ∧
        KnownParticle st'.fparticleList p.trackId = true ∧
        st'.fCurrentTrackID = p.trackId) := by
  refine ⟨rfl, by decide, ?_⟩
  exact primary_track_admitted ⟨1 / 1000, true, false, none⟩
    ⟨0, NoParticleId, [], ⟨[]⟩, clearedSlot⟩
    ⟨1, 0, 13, true, true, none, 1 / 2000, 105, (0, 0, 0)⟩ rfl rfl

/-! Shared concrete scenario: a primary track, an energy-cut-dropped
secondary, an EM-shower secondary and a grand-daughter, run against a
configuration with energy cut 0.001 and keepEMShowerDaughters = false. -/

/-- Scenario configuration: energy cut 0.001, trajectories stored, EM-shower
daughters dropped, no external keep-filter. -/
def cfgScen : Config := ⟨1 / 1000, true, false, none⟩

/-- Scenario initial state: fresh event, zero track-id offset. -/
def stScen : GState := ⟨0, NoParticleId, [], ⟨[]⟩, clearedSlot⟩

/-- Scenario primary track (track id 1). -/
def trPrim : G4Track := ⟨1, 0, 13, true, true, none, 5, 105, (0, 0, 0)⟩

/-- Scenario secondary of track 1 with kinetic energy 0.0005, below the
cut. -/
def trDrop : G4Track :=
  ⟨2, 1, 11, false, false, some "muMinusCaptureAtRest", 1 / 2000, 1 / 2, (0, 0, 0)⟩

/-- Scenario secondary of track 1 created by the Compton process. -/
def trEM : G4Track := ⟨2, 1, 11, false, false, some "compt", 5, 1 / 2, (0, 0, 0)⟩

/-- Scenario daughter of the dropped track 2, above the cut. -/
def trChild : G4Track := ⟨3, 2, 22, false, false, some "Decay", 1, 0, (0, 0, 0)⟩

/-- C9: the keep decision is monotone within a track: with no external
filter configured it is already true at admission; with a filter, appending
a point consults the filter with the appended position exactly while the
decision is still false, a true decision is preserved by any further
appended point, and hence by any sequence of appended points. -/
theorem keep_decision_monotone :
    (∀ (cfg : Config) (st st' : GState) (track : G4Track),
      cfg.fFilter = none →
      preUserTrackingAction cfg st track = Except.ok st' →
      st'.fCurrentParticle.particle.isSome = true →
      st'.fCurrentParticle.keep = true) ∧
    (∀ (cfg : Config) (slot : ParticleInfo) (f : Vec4 → Bool) (pos mom : Vec4) (pr : String),
      cfg.fFilter = some f → slot.keep = false → slot.particle.isSome = true →
      (AddPointToCurrentParticle cfg slot pos mom pr).keep = f pos) ∧
    (∀ (cfg : Config) (slot : ParticleInfo) (pos mom : Vec4) (pr : String),
      slot.keep = true →
      (AddPointToCurrentParticle cfg slot pos mom pr).keep = true) ∧
    (∀ (cfg : Config) (slot : ParticleInfo) (pts : List (Vec4 × Vec4 × String)),
      slot.keep = true →
      (pts.foldl (fun s q => AddPointToCurrentParticle cfg s q.1 q.2.1 q.2.2) slot).keep
        = true) := by
  have keepTrue : ∀ (cfg : Config) (slot : ParticleInfo) (pos mom : Vec4) (pr : String),
      slot.keep = true →
      (AddPointToCurrentParticle cfg slot pos mom pr).keep = true := by
    intro cfg slot pos mom pr hk
    cases hsp : slot.particle with
    | none => simp only [AddPointToCurrentParticle, hsp]; exact hk
    | some p => simp only [AddPointToCurrentParticle, hsp, hk, if_true]
  refine ⟨?_, ?_, keepTrue, ?_⟩
  · intro cfg st st' track hf h hs
    have hkeep : ∀ (st₀ : GState) (tid pdg : Int) (pn : String) (pid : Int) (tr : G4Track),
        (addCurrentParticle cfg st₀ tid pdg pn pid tr).fCurrentParticle.keep = true := by
      intro st₀ tid pdg pn pid tr
      simp [addCurrentParticle, hf]
    unfold preUserTrackingAction at h
    dsimp only at h
    split at h
    · split at h
      · injection h with h; subst h; exact hkeep _ _ _ _ _ _
      · injection h with h; subst h; exact hkeep _ _ _ _ _ _
    · split at h
      · exact Except.noConfusion h
      · split at h
        · injection h with h; subst h; simp [clearedSlot] at hs
        · split at h
          · injection h with h; subst h; simp [clearedSlot] at hs
          · split at h
            · split at h
              · injection h with h; subst h; exact hkeep _ _ _ _ _ _
              · injection h with h; subst h; exact hkeep _ _ _ _ _ _
            · injection h with h; subst h; exact hkeep _ _ _ _ _ _
  · intro cfg slot f pos mom pr hf hk hs
    cases hsp : slot.particle with
    | none => rw [hsp] at hs; exact Bool.noConfusion hs
    | some p =>
      simp only [AddPointToCurrentParticle, hsp, hk, Bool.false_eq_true, if_false, hf]
  · intro cfg slot pts hk
    induction pts generalizing slot with
    | nil => exact hk
    | cons q qs ih => exact ih _ (keepTrue _ _ _ _ _ hk)

/-- C9 witness: with no filter a concretely admitted primary has keep true,
and appending a point to a slot whose keep is already true leaves it
true. -/
theorem keep_decision_monotone_witness :
    ((⟨some (mkMCParticle 1 13 "primary" 0 1 (0, 0, 0)), true⟩ : ParticleInfo).keep = true) ∧
      (AddPointToCurrentParticle cfgScen
          ⟨some (mkMCParticle 1 13 "primary" 0 1 (0, 0, 0)), true⟩
          (0, 0, 0, 0) (0, 0, 0, 0) "Start").keep = true :=
  ⟨rfl, keep_decision_monotone.2.2.1 cfgScen
    ⟨some (mkMCParticle 1 13 "primary" 0 1 (0, 0, 0)), true⟩
    (0, 0, 0, 0) (0, 0, 0, 0) "Start" rfl⟩

/-- C5: a non-primary, non-EM-matched track below the energy cut is dropped
with the energy-cut bookkeeping: its (trackId, rawParentId) pair is entered
in the parent-id map, the current-track id becomes the negative of the
resolved ultimate ancestor, the slot is cleared and the registry is
untouched; and in the concrete scenario a particle below the 0.001 cut is
dropped while its later daughter resolves its mother through the parent-id
map to the kept primary. -/
theorem energy_cut_drop_bookkeeping :
    (∀ (cfg : Config) (st : GState) (track : G4Track) (pname : String),
      track.hasPrimaryParticle = false →
      track.creatorProcess = some pname →
      (cfg.fKeepEMShowerDaughters = true ∨ isEMShowerProcess pname = false) →
      track.kineticEnergy < cfg.fenergyCut →
      ∃ st', preUserTrackingAction cfg st track = Except.ok st' ∧
        st'.fParentIDMap = mapInsert st.fParentIDMap (track.trackID + st.fTrackIDOffset)
          (track.parentID + st.fTrackIDOffset) ∧
        st'.fCurrentTrackID =
          -1 * GetParentage st'.fParentIDMap (track.trackID + st.fTrackIDOffset) ∧
        st'.fCurrentParticle = clearedSlot ∧
        st'.fparticleList = st.fparticleList) ∧
    ((preUserTrackingAction cfgScen stScen trPrim).bind (fun s1 =>
        preUserTrackingAction cfgScen s1 trDrop)).toOption.map
      (fun s => (s.fParentIDMap, s.fCurrentTrackID, plTrackIds s.fparticleList))
      = some ([(2, 1)], -1, [1]) ∧
    ((preUserTrackingAction cfgScen stScen trPrim).bind (fun s1 =>
        (preUserTrackingAction cfgScen s1 trDrop).bind (fun s2 =>
          preUserTrackingAction cfgScen s2 trChild))).toOption.map
      (fun s => s.fCurrentParticle.particle.map (·.motherId)) = some (some 1) := by
  refine ⟨?_, by decide, by decide⟩
  intro cfg st track pname hp hc hnem hcut
  have hnem' : (cfg.fKeepEMShowerDaughters = false ∧ isEMShowerProcess pname = true) → False := by
    rintro ⟨h1, h2⟩
    rcases hnem with h | h
    · rw [h1] at h; exact Bool.noConfusion h
    · rw [h2] at h; exact Bool.noConfusion h
  have h : preUserTrackingAction cfg st track =
      Except.ok { st with
        fCurrentTrackID := -1 * GetParentage
          (mapInsert st.fParentIDMap (track.trackID + st.fTrackIDOffset)
            (track.parentID + st.fTrackIDOffset)) (track.trackID + st.fTrackIDOffset),
        fParentIDMap := mapInsert st.fParentIDMap (track.trackID + st.fTrackIDOffset)
          (track.parentID + st.fTrackIDOffset),
        fCurrentParticle := clearedSlot } := by
    simp only [preUserTrackingAction, hp, Bool.false_eq_true, if_false, hc]
    rw [if_neg hnem', if_pos hcut]
  exact ⟨_, h, rfl, rfl, rfl, rfl⟩

/-- C5 witness: the general energy-cut branch applied to the concrete
dropped track of the scenario. -/
theorem energy_cut_drop_bookkeeping_witness :
    ((1 : ℚ) / 2000 < cfgScen.fenergyCut) ∧
      ∃ st', preUserTrackingAction cfgScen stScen trDrop = Except.ok st' ∧
        st'.fParentIDMap = mapInsert stScen.fParentIDMap (trDrop.trackID + stScen.fTrackIDOffset)
          (trDrop.parentID + stScen.fTrackIDOffset) ∧
        st'.fCurrentTrackID =
          -1 * GetParentage st'.fParentIDMap (trDrop.trackID + stScen.fTrackIDOffset) ∧
        st'.fCurrentParticle = clearedSlot ∧
        st'.fparticleList = stScen.fparticleList :=
  ⟨by decide, energy_cut_drop_bookkeeping.1 cfgScen stScen trDrop "muMinusCaptureAtRest"
    rfl rfl (Or.inr (by decide)) (by decide)⟩

/-- C2 counterexample: with the primary (track 1) admitted and known, the
EM daughter (track 2, process "compt") resolves to ancestor 1, which is a
known particle, yet the current-track id is set to the sentinel rather
than keeping the negative encoding -1: the re-check is performed on the
negated id, which is never a registry key. -/
theorem em_daughter_recheck_counterexample :
    ((preUserTrackingAction cfgScen stScen trPrim).bind (fun s1 =>
        preUserTrackingAction cfgScen s1 trEM)).toOption.map
      (fun s => (s.fCurrentTrackID, s.fParentIDMap)) = some (NoParticleId, [(2, 1)]) ∧
    (preUserTrackingAction cfgScen stScen trPrim).toOption.map
      (fun s => KnownParticle s.fparticleList (GetParentage [(2, 1)] 2)) = some true ∧
    NoParticleId ≠ -1 * GetParentage [(2, 1)] 2 := by
  refine ⟨by decide, by decide, by decide⟩

/-- C2 (amended): a non-primary EM-matched track with keepEMShowerDaughters
false is not admitted; its (trackId, rawParentId) pair is entered in the
parent-id map, the current-track id is set to the negative of the resolved
ancestor and that negated value itself is re-checked against the registry:
it is kept only if the negated value is a known particle, and otherwise
falls back to the sentinel; the slot is cleared and the registry is
untouched. -/
theorem em_daughter_drop_bookkeeping (cfg : Config) (st : GState) (track : G4Track)
    (pname : String)
    (hp : track.hasPrimaryParticle = false)
    (hc : track.creatorProcess = some pname)
    (hkeep : cfg.fKeepEMShowerDaughters = false)
    (hem : isEMShowerProcess pname = true) :
    ∃ st', preUserTrackingAction cfg st track = Except.ok st' ∧
      st'.fParentIDMap = mapInsert st.fParentIDMap (track.trackID + st.fTrackIDOffset)
        (track.parentID + st.fTrackIDOffset) ∧
      (KnownParticle st.fparticleList
          (-1 * GetParentage st'.fParentIDMap (track.trackID + st.fTrackIDOffset)) = true →
        st'.fCurrentTrackID =
          -1 * GetParentage st'.fParentIDMap (track.trackID + st.fTrackIDOffset)) ∧
      (KnownParticle st.fparticleList
          (-1 * GetParentage st'.fParentIDMap (track.trackID + st.fTrackIDOffset)) = false →
        st'.fCurrentTrackID = NoParticleId) ∧
      st'.fCurrentParticle = clearedSlot ∧
      st'.fparticleList = st.fparticleList := by
  have h : preUserTrackingAction cfg st track =
      Except.ok { st with
        fCurrentTrackID :=
          if KnownParticle st.fparticleList
              (-1 * GetParentage
                (mapInsert st.fParentIDMap (track.trackID + st.fTrackIDOffset)
                  (track.parentID + st.fTrackIDOffset))
                (track.trackID + st.fTrackIDOffset)) = false then NoParticleId
          else
            -1 * GetParentage
              (mapInsert st.fParentIDMap (track.trackID + st.fTrackIDOffset)
                (track.parentID + st.fTrackIDOffset)) (track.trackID + st.fTrackIDOffset),
        fParentIDMap := mapInsert st.fParentIDMap (track.trackID + st.fTrackIDOffset)
          (track.parentID + st.fTrackIDOffset),
        fCurrentParticle := clearedSlot } := by
    simp only [preUserTrackingAction, hp, Bool.false_eq_true, if_false, hc]
    rw [if_pos ⟨hkeep, hem⟩]
  refine ⟨_, h, rfl, ?_, ?_, rfl, rfl⟩
  · intro hK
    simp only [hK, Bool.true_eq_false, if_false]
  · intro hK
    simp only [hK, if_true]

/-- C2 witness: the amended EM branch applied to the concrete Compton
daughter of the scenario. -/
theorem em_daughter_drop_bookkeeping_witness :
    (isEMShowerProcess "compt" = true) ∧
      ∃ st', preUserTrackingAction cfgScen stScen trEM = Except.ok st' ∧
        st'.fParentIDMap = mapInsert stScen.fParentIDMap (trEM.trackID + stScen.fTrackIDOffset)
          (trEM.parentID + stScen.fTrackIDOffset) ∧
        (KnownParticle stScen.fparticleList
            (-1 * GetParentage st'.fParentIDMap (trEM.trackID + stScen.fTrackIDOffset)) = true →
          st'.fCurrentTrackID =
            -1 * GetParentage st'.fParentIDMap (trEM.trackID + stScen.fTrackIDOffset)) ∧
        (KnownParticle stScen.fparticleList
            (-1 * GetParentage st'.fParentIDMap (trEM.trackID + stScen.fTrackIDOffset)) = false →
          st'.fCurrentTrackID = NoParticleId) ∧
        st'.fCurrentParticle = clearedSlot ∧
        st'.fparticleList = stScen.fparticleList :=
  ⟨by decide, em_daughter_drop_bookkeeping cfgScen stScen trEM "compt" rfl rfl rfl (by decide)⟩

/-! Termination of the parent-chain resolution. -/

/-- Number of map entries whose key is at most tid; the variant of the
GetParentage loop. -/
def countLe (m : List (Int × Int)) (tid : Int) : Nat :=
  (m.filter (fun pr => pr.1 ≤ tid)).length

theorem filter_length_mono {α : Type} (p q : α → Bool) (l : List α)
    (h : ∀ x ∈ l, q x = true → p x = true) :
    (l.filter q).length ≤ (l.filter p).length := by
  induction l with
  | nil => simp
  | cons a t ih =>
    have ih' := ih (fun x hx => h x (List.mem_cons_of_mem a hx))
    by_cases hq : q a = true
    · have hp := h a (List.mem_cons_self a t) hq
      simp [List.filter_cons, hq, hp]
      omega
    · have hq' : q a = false := by revert hq; cases q a <;> simp
      simp only [List.filter_cons, hq']
      by_cases hp : p a = true
      · simp [hp]; omega
      · have hp' : p a = false := by revert hp; cases p a <;> simp
        simp [hp']; omega

theorem filter_length_strict {α : Type} (p q : α → Bool) (l : List α) (a : α)
    (ha : a ∈ l) (hpa : p a = true) (hqa : q a = false)
    (h : ∀ x ∈ l, q x = true → p x = true) :
    (l.filter q).length < (l.filter p).length := by
  induction l with
  | nil => exact absurd ha (List.not_mem_nil a)
  | cons b t ih =>
    have hmono : (t.filter q).length ≤ (t.filter p).length :=
      filter_length_mono p q t (fun x hx => h x (List.mem_cons_of_mem b hx))
    rcases List.mem_cons.mp ha with hab | hat
    · subst hab
      simp [List.filter_cons, hpa, hqa]
      omega
    · have ih' := ih hat (fun x hx => h x (List.mem_cons_of_mem b hx))
      by_cases hq : q b = true
      · have hp := h b (List.mem_cons_self b t) hq
        simp [List.filter_cons, hq, hp]
        omega
      · have hq' : q b = false := by revert hq; cases q b <;> simp
        simp only [List.filter_cons, hq']
        by_cases hp : p b = true
        · simp [hp]; omega
        · have hp' : p b = false := by revert hp; cases p b <;> simp
          simp [hp']; omega

theorem countLe_lt (m : List (Int × Int)) (hdec : ∀ pr ∈ m, pr.2 < pr.1)
    {tid v : Int} (hlk : mapLookup m tid = some v) :
    countLe m v < countLe m tid := by
  obtain ⟨pr, hfind⟩ : ∃ pr, m.find? (fun pr => pr.1 = tid) = some pr ∧ pr.2 = v := by
    unfold mapLookup at hlk
    cases hf : m.find? (fun pr => pr.1 = tid) with
    | none => rw [hf] at hlk; exact Option.noConfusion hlk
    | some pr => rw [hf] at hlk; exact ⟨pr, rfl, Option.some.injEq _ _ ▸ hlk.symm ▸ rfl⟩
  obtain ⟨hfind, hv⟩ := hfind
  have hmem : pr ∈ m := List.mem_of_find?_eq_some hfind
  have hkey : pr.1 = tid := by
    have := List.find?_some hfind
    exact of_decide_eq_true this
  have hvtid : v < tid := by
    have := hdec pr hmem
    rw [hkey, hv] at this
    exact this
  refine filter_length_strict _ _ m pr hmem ?_ ?_ ?_
  · simp [hkey]
  · simp only [hkey, hv]
    simp [not_le.mpr hvtid]
  · intro x _ hx
    have hx' : x.1 ≤ v := of_decide_eq_true hx
    exact decide_eq_true (le_trans hx' (le_of_lt hvtid))

theorem gpRun_lookup_none (m : List (Int × Int)) (tid pid : Int)
    (h : mapLookup m tid = none) : ∀ fuel, gpRun m fuel tid pid = some pid := by
  intro f
  cases f <;> simp [gpRun, h]

theorem gpRun_stable (m : List (Int × Int)) (hdec : ∀ pr ∈ m, pr.2 < pr.1) :
    ∀ (fuel : Nat) (tid pid : Int), countLe m tid ≤ fuel →
      gpRun m fuel tid pid = gpRun m (countLe m tid) tid pid ∧
      (gpRun m fuel tid pid).isSome = true := by
  intro fuel
  induction fuel using Nat.strong_induction_on with
  | _ fuel ih =>
    intro tid pid hle
    cases hlk : mapLookup m tid with
    | none =>
      rw [gpRun_lookup_none m tid pid hlk, gpRun_lookup_none m tid pid hlk]
      exact ⟨rfl, rfl⟩
    | some v =>
      have hvlt : countLe m v < countLe m tid := countLe_lt m hdec hlk
      cases fuel with
      | zero => omega
      | succ n =>
        have h1 : gpRun m (n + 1) tid pid = gpRun m n v v := by simp [gpRun, hlk]
        have hvn : countLe m v ≤ n := by omega
        have recn := ih n (Nat.lt_succ_self n) v v hvn
        obtain ⟨k, hk⟩ : ∃ k, countLe m tid = k + 1 := ⟨countLe m tid - 1, by omega⟩
        have h2 : gpRun m (countLe m tid) tid pid = gpRun m k v v := by
          rw [hk]; simp [gpRun, hlk]
        have hvk : countLe m v ≤ k := by omega
        have reck := ih k (by omega) v v hvk
        constructor
        · rw [h1, h2, recn.1, reck.1]
        · rw [h1]; exact recn.2

theorem countLe_le_length (m : List (Int × Int)) (tid : Int) :
    countLe m tid ≤ m.length :=
  List.length_filter_le _ m

/-- C7: under the no-cycle precondition that every parent-id map entry has
value strictly below its key (parents are created before daughters, so a
track's recorded parent id precedes it), the GetParentage chain walk
terminates within a number of successful lookups bounded by the number of
map entries: with that much fuel gpRun yields a result, more fuel never
changes it, a trackid never entered in the map resolves to the no-particle
sentinel, and one recorded lookup step unfolds the chain exactly as the
loop does (the last value found is carried forward). -/
theorem GetParentage_terminates (m : List (Int × Int))
    (hdec : ∀ pr ∈ m, pr.2 < pr.1) :
    ∀ tid pid : Int,
      (gpRun m m.length tid pid).isSome = true ∧
      (∀ fuel, m.length ≤ fuel → gpRun m fuel tid pid = gpRun m m.length tid pid) ∧
      (mapLookup m tid = none → GetParentage m tid = NoParticleId) ∧
      (∀ v, mapLookup m tid = some v →
        gpRun m m.length tid pid = gpRun m m.length v v) := by
  intro tid pid
  have hcnt := countLe_le_length m tid
  refine ⟨(gpRun_stable m hdec m.length tid pid hcnt).2, ?_, ?_, ?_⟩
  · intro fuel hfuel
    rw [(gpRun_stable m hdec fuel tid pid (le_trans hcnt hfuel)).1,
      (gpRun_stable m hdec m.length tid pid hcnt).1]
  · intro hlk
    unfold GetParentage
    rw [gpRun_lookup_none m tid NoParticleId hlk]
    rfl
  · intro v hlk
    cases hlen : m.length with
    | zero =>
      exfalso
      have hnil : m = [] := List.length_eq_zero.mp hlen
      rw [hnil] at hlk
      simp [mapLookup] at hlk
    | succ n =>
      have h1 : gpRun m (n + 1) tid pid = gpRun m n v v := by simp [gpRun, hlk]
      have hvlt : countLe m v < countLe m tid := countLe_lt m hdec hlk
      have hvn : countLe m v ≤ n := by
        have := countLe_le_length m tid
        omega
      rw [h1, (gpRun_stable m hdec n v v hvn).1,
        (gpRun_stable m hdec (n + 1) v v (by omega)).1]

/-- C7 witness: the chain 3 -> 2 -> 1 over a two-entry map terminates with
fuel 2 and resolves a recorded track through the map. -/
theorem GetParentage_terminates_witness :
    (∀ pr ∈ [((2 : Int), (1 : Int)), (3, 2)], pr.2 < pr.1) ∧
      (gpRun [((2 : Int), (1 : Int)), (3, 2)] 2 3 NoParticleId).isSome = true ∧
      GetParentage [((2 : Int), (1 : Int)), (3, 2)] 5 = NoParticleId :=
  ⟨by decide,
    (GetParentage_terminates [(2, 1), (3, 2)] (by decide) 3 NoParticleId).1,
    (GetParentage_terminates [(2, 1), (3, 2)] (by decide) 5 NoParticleId).2.2.1 (by decide)⟩

/-! Stepping-action lemmas. -/

theorem AddPoint_particle (cfg : Config) (slot : ParticleInfo) (pos mom : Vec4)
    (pr : String) (p : MCParticle) (h : slot.particle = some p) :
    ∃ p', (AddPointToCurrentParticle cfg slot pos mom pr).particle = some p' ∧
      p'.trajectory = p.trajectory ++ [(pos, mom, pr)] := by
  refine ⟨{ p with trajectory := p.trajectory ++ [(pos, mom, pr)] }, ?_, rfl⟩
  simp only [AddPointToCurrentParticle, h]

/-- Concrete photon particle with one already-recorded trajectory point. -/
def pPh : MCParticle :=
  ⟨1, 0, "primary", 0, 0, (0, 0, 0), 1, "", [((0, 0, 0, 0), (0, 0, 0, 0), "Start")], []⟩

/-- Concrete slot holding the photon. -/
def slotPh : ParticleInfo := ⟨some pPh, true⟩

/-- Concrete photon step: pre-step time 0, engine post-step time 10, step
length 1, track velocity 1/5, so the reported step velocity 1/10 disagrees
with the track velocity beyond 1e-4 and the re-timed post-step time is
0 + 1/(1/5) = 5. -/
def stepPh : G4Step :=
  ⟨0, 10, (0, 0, 0), (1, 0, 0), (0, 0, 0), (0, 0, 0), 1, 1, 1, 1 / 5, 0, "Transportation"⟩

/-- C3 counterexample: for the concrete photon step the trajectory point
recorded for the current step carries the corrected time 5, not the
engine-reported post-step time 10: the re-timing mutates the very post-step
point from which the current step's trajectory point is built. -/
theorem photon_retime_trajectory_counterexample :
    ((userSteppingAction cfgScen slotPh stepPh).1.particle.map
      (fun p => p.trajectory.map (fun q => q.1.2.2.2))) = some [0, 5] ∧
    (userSteppingAction cfgScen slotPh stepPh).2.postTime = 5 ∧
    stepPh.postTime = 10 ∧ (5 : ℚ) ≠ 10 := by
  refine ⟨by decide, by decide, by decide, by decide⟩

/-- C3 (amended): when the photon re-timing fires on a step of a tracked
particle (zero pdg code, velocity disagreement beyond 1e-4) and the
post-step point is recorded (trajectory storage on, process not ignored),
the correction rewrites the post-step global time to the back-computed
value, which is then observed both by subsequent steps (the returned step
differs from the input only in that time) and by the trajectory point
recorded for the current step, whose time coordinate is the corrected
one. -/
theorem photon_retime_effect (cfg : Config) (slot : ParticleInfo) (step : G4Step)
    (p : MCParticle)
    (hp : slot.particle = some p)
    (hpdg : step.trackPdg = 0)
    (hvel : |step.trackVelocity - step.stepLength / (step.postTime - step.preTime)| > 1 / 10000)
    (hstore : cfg.fstoreTrajectories = true)
    (hig : ignoredProcess step.postProcessName = false) :
    (userSteppingAction cfg slot step).2 =
      { step with postTime := step.postTime - (step.postTime - step.preTime)
        + step.stepLength / step.trackVelocity } ∧
    ∃ p', (userSteppingAction cfg slot step).1.particle = some p' ∧
      p'.trajectory.getLast? = some
        (fourPos step.postPos (step.postTime - (step.postTime - step.preTime)
            + step.stepLength / step.trackVelocity),
          fourMom step.postMom step.postEnergy, step.postProcessName) := by
  have hret : retimePhotonStep step =
      { step with postTime := step.postTime - (step.postTime - step.preTime)
        + step.stepLength / step.trackVelocity } := by
    unfold retimePhotonStep
    rw [if_pos ⟨hpdg, hvel⟩]
  refine ⟨?_, ?_⟩
  · unfold userSteppingAction
    simp only [hp, hret]
  · unfold userSteppingAction
    simp only [hp, hret]
    rw [if_pos (And.intro hstore hig)]
    by_cases hlen : p.trajectory.length = 0
    · rw [if_pos hlen]
      obtain ⟨p₁, hp₁, htr₁⟩ := AddPoint_particle cfg slot
        (fourPos step.prePos step.preTime) (fourMom step.preMom step.preEnergy) "Start" p hp
      obtain ⟨p₂, hp₂, htr₂⟩ := AddPoint_particle cfg _ _ _ step.postProcessName p₁ hp₁
      exact ⟨p₂, hp₂, by rw [htr₂, List.getLast?_concat]⟩
    · rw [if_neg hlen]
      obtain ⟨p₂, hp₂, htr₂⟩ := AddPoint_particle cfg slot _ _ step.postProcessName p hp
      exact ⟨p₂, hp₂, by rw [htr₂, List.getLast?_concat]⟩

/-- C3 witness: the amended statement applied to the concrete photon step;
the velocity-disagreement hypothesis holds there (|1/5 - 1/10| > 1e-4). -/
theorem photon_retime_effect_witness :
    (|stepPh.trackVelocity - stepPh.stepLength / (stepPh.postTime - stepPh.preTime)|
        > 1 / 10000) ∧
      ((userSteppingAction cfgScen slotPh stepPh).2 =
        { stepPh with postTime := stepPh.postTime - (stepPh.postTime - stepPh.preTime)
          + stepPh.stepLength / stepPh.trackVelocity } ∧
      ∃ p', (userSteppingAction cfgScen slotPh stepPh).1.particle = some p' ∧
        p'.trajectory.getLast? = some
          (fourPos stepPh.postPos (stepPh.postTime - (stepPh.postTime - stepPh.preTime)
              + stepPh.stepLength / stepPh.trackVelocity),
            fourMom stepPh.postMom stepPh.postEnergy, stepPh.postProcessName)) :=
  ⟨by decide, photon_retime_effect cfgScen slotPh stepPh pPh rfl rfl (by decide) rfl (by decide)⟩

/-! Track-id offset lemmas. -/

/-- Reading of the specification for comparison: highest track id across
live (non-archived) registry entries only. -/
def highestLiveID (pl : ParticleList) : Int :=
  (pl.entries.filter (fun e => e.payload.isSome)).foldl
    (fun h e => if e.trackId > h then e.trackId else h) 0

/-- Concrete kept particle for the finalization scenarios. -/
def p1Scen : MCParticle := mkMCParticle 1 13 "primary" 0 (21 / 200) (0, 0, 0)

/-- Concrete end-of-event state: track 1 kept, track 2 archived (payload
released, key and mother id retained). -/
def stYC : GState := ⟨0, 1, [], ⟨[⟨1, 0, some p1Scen⟩, ⟨2, 1, none⟩]⟩, clearedSlot⟩

/-- C6 counterexample: with a live entry 1 and an archived entry 2 the
highest live track id is 1, but YieldList advances the offset to 3, not
1 + 1: the highest id is computed over all entries, archived included. -/
theorem trackIDOffset_live_counterexample :
    highestLiveID stYC.fparticleList = 1 ∧
    (YieldList stYC).2.fTrackIDOffset = 3 ∧
    (3 : Int) ≠ 1 + 1 := by
  refine ⟨by decide, by decide, by decide⟩

theorem le_foldl_highest (es : List PLEntry) :
    ∀ a : Int, a ≤ es.foldl (fun h e => if e.trackId > h then e.trackId else h) a := by
  induction es with
  | nil => intro a; exact le_refl a
  | cons e t ih =>
    intro a
    refine le_trans ?_ (ih (if e.trackId > a then e.trackId else a))
    by_cases h : e.trackId > a
    · rw [if_pos h]; exact le_of_lt h
    · rw [if_neg h]

theorem highestID_nonneg (pl : ParticleList) : 0 ≤ highestID pl :=
  le_foldl_highest pl.entries 0

theorem admitted_trackId (cfg : Config) (st st' : GState) (track : G4Track)
    (p : MCParticle)
    (h : preUserTrackingAction cfg st track = Except.ok st')
    (hs : st'.fCurrentParticle.particle = some p) :
    p.trackId = track.trackID + st.fTrackIDOffset := by
  unfold preUserTrackingAction at h
  dsimp only at h
  split at h
  · split at h
    · injection h with h; subst h; injection hs with hs; subst hs; rfl
    · injection h with h; subst h; injection hs with hs; subst hs; rfl
  · split at h
    · exact Except.noConfusion h
    · split at h
      · injection h with h; subst h; simp [clearedSlot] at hs
      · split at h
        · injection h with h; subst h; simp [clearedSlot] at hs
        · split at h
          · split at h
            · injection h with h; subst h; injection hs with hs; subst hs; rfl
            · injection h with h; subst h; injection hs with hs; subst hs; rfl
          · injection h with h; subst h; injection hs with hs; subst hs; rfl

/-- C6 (amended): a nonempty registry (live or archived entries alike)
advances the run-level offset to one past the highest stored track id
(archived keys included), an empty registry leaves the offset unchanged,
and any track admitted in the next event with an engine id of at least 1
receives a track id strictly greater than that highest id. -/
theorem trackIDOffset_advance (st : GState) :
    (st.fparticleList.entries ≠ [] →
      (YieldList st).2.fTrackIDOffset = highestID st.fparticleList + 1) ∧
    (st.fparticleList.entries = [] →
      (YieldList st).2.fTrackIDOffset = st.fTrackIDOffset) ∧
    (st.fparticleList.entries ≠ [] →
      ∀ (cfg : Config) (st₂ st' : GState) (track : G4Track) (p : MCParticle),
        1 ≤ track.trackID →
        st₂.fTrackIDOffset = (YieldList st).2.fTrackIDOffset →
        preUserTrackingAction cfg st₂ track = Except.ok st' →
        st'.fCurrentParticle.particle = some p →
        highestID st.fparticleList < p.trackId) := by
  refine ⟨?_, ?_, ?_⟩
  · intro hne
    have hlen : st.fparticleList.entries.length ≠ 0 := by
      intro h0
      exact hne (List.length_eq_zero.mp h0)
    simp [YieldList, hlen]
  · intro hemp
    simp [YieldList, hemp]
  · intro hne cfg st₂ st' track p htr hoff h hs
    have h1 : p.trackId = track.trackID + st₂.fTrackIDOffset :=
      admitted_trackId cfg st₂ st' track p h hs
    have hlen : st.fparticleList.entries.length ≠ 0 := by
      intro h0
      exact hne (List.length_eq_zero.mp h0)
    have h2 : st₂.fTrackIDOffset = highestID st.fparticleList + 1 := by
      rw [hoff]; simp [YieldList, hlen]
    rw [h1, h2]
    omega

/-- C6 witness: the amended statement applied to the concrete end-of-event
registry with a live and an archived entry. -/
theorem trackIDOffset_advance_witness :
    (stYC.fparticleList.entries ≠ []) ∧
      (YieldList stYC).2.fTrackIDOffset = highestID stYC.fparticleList + 1 :=
  ⟨by decide, (trackIDOffset_advance stYC).1 (by decide)⟩

/-! End-of-event association loop. -/

theorem assocLoop_cons_none (mct : Nat) :
    ∀ (fuel : Nat) (e : PLEntry) (rest : List PLEntry) (partCol : List MCParticle)
      (assns : List (Nat × Nat)),
      assocLoop mct fuel (e :: rest) partCol assns = none := by
  intro fuel
  induction fuel with
  | zero => intro e rest partCol assns; rfl
  | succ n ih =>
    intro e rest partCol assns
    cases hpay : e.payload with
    | none => simp [assocLoop, hpay]
    | some p => simp [assocLoop, hpay, ih]

theorem endOfEventAction_stuck (fuel : Nat) (st : GState) (t : Nat) (ts : List Nat)
    (e : PLEntry) (rest : List PLEntry)
    (hE : (YieldList { st with fparticleList := linkDaughters st.fparticleList }).1.entries
      = e :: rest) :
    endOfEventAction fuel st (t :: ts) = none := by
  unfold endOfEventAction
  dsimp only
  rw [hE]
  simp only [assocAllTruths, assocLoop_cons_none]

/-- Concrete end-of-event state holding one admitted particle. -/
def stFin : GState := ⟨0, 1, [], ⟨[⟨1, 0, some p1Scen⟩]⟩, clearedSlot⟩

/-- C1: with one admitted particle and one externally supplied truth record,
the end-of-event association loop never terminates, for any number of
allowed iterations: the source's while loop never advances its iterator, so
no fan-out of particles over truth records is ever emitted. -/
theorem endOfEventAction_nonterminating :
    ∀ fuel : Nat, endOfEventAction fuel stFin [0] = none := by
  intro fuel
  exact endOfEventAction_stuck fuel stFin 0 [] ⟨1, 0, some p1Scen⟩ [] (by decide)

/-! Daughter-linking machinery: the linking pass only ever rewrites
payloads of existing keys, so the structural skeleton of the registry
(keys, mother ids, liveness) is invariant across the pass, and daughter
sets only grow. -/

/-- Structural skeleton of a registry entry: key, mother id, liveness. -/
def entrySkel (e : PLEntry) : Int × Int × Bool := (e.trackId, e.motherId, e.payload.isSome)

/-- Structural skeleton of the registry. -/
def plSkel (pl : ParticleList) : List (Int × Int × Bool) := pl.entries.map entrySkel

theorem find?_cons_pos {α : Type} (f : α → Bool) (a : α) (l : List α) (h : f a = true) :
    (a :: l).find? f = some a := by
  simp [List.find?, h]

theorem find?_cons_neg {α : Type} (f : α → Bool) (a : α) (l : List α) (h : f a = false) :
    (a :: l).find? f = l.find? f := by
  simp [List.find?, h]

theorem find?_plSetPayloadL_self (tid : Int) (p : MCParticle) :
    ∀ (es : List PLEntry) (pe : PLEntry),
      es.find? (fun e => e.trackId = tid) = some pe →
      (plSetPayloadL es tid p).find? (fun e => e.trackId = tid)
        = some ⟨pe.trackId, pe.motherId, some p⟩ := by
  intro es
  induction es with
  | nil => intro pe h; exact Option.noConfusion h
  | cons x xs ih =>
    intro pe h
    by_cases hx : x.trackId = tid
    · rw [find?_cons_pos (fun e => e.trackId = tid) x xs (decide_eq_true hx)] at h
      injection h with h
      subst h
      simp only [plSetPayloadL, if_pos hx]
      exact find?_cons_pos _ _ _ (decide_eq_true hx)
    · rw [find?_cons_neg (fun e => e.trackId = tid) x xs (decide_eq_false hx)] at h
      simp only [plSetPayloadL, if_neg hx]
      rw [find?_cons_neg (fun e => e.trackId = tid) x _ (decide_eq_false hx)]
      exact ih pe h

theorem find?_plSetPayloadL_ne (tid m : Int) (p : MCParticle) (hne : m ≠ tid) :
    ∀ es : List PLEntry,
      (plSetPayloadL es tid p).find? (fun e => e.trackId = m)
        = es.find? (fun e => e.trackId = m) := by
  intro es
  induction es with
  | nil => rfl
  | cons x xs ih =>
    by_cases hx : x.trackId = tid
    · have hxm : ¬ x.trackId = m := by rw [hx]; exact fun h => hne h.symm
      simp only [plSetPayloadL, if_pos hx]
      rw [find?_cons_neg (fun e => e.trackId = m) ⟨x.trackId, x.motherId, some p⟩ xs
          (decide_eq_false hxm),
        find?_cons_neg (fun e => e.trackId = m) x xs (decide_eq_false hxm)]
    · simp only [plSetPayloadL, if_neg hx]
      by_cases hxm : x.trackId = m
      · rw [find?_cons_pos (fun e => e.trackId = m) x _ (decide_eq_true hxm),
          find?_cons_pos (fun e => e.trackId = m) x xs (decide_eq_true hxm)]
      · rw [find?_cons_neg (fun e => e.trackId = m) x _ (decide_eq_false hxm),
          find?_cons_neg (fun e => e.trackId = m) x xs (decide_eq_false hxm)]
        exact ih

theorem plSetPayloadL_skel (tid : Int) (p : MCParticle) :
    ∀ (es : List PLEntry) (pe : PLEntry),
      es.find? (fun e => e.trackId = tid) = some pe →
      pe.payload.isSome = true →
      (plSetPayloadL es tid p).map entrySkel = es.map entrySkel := by
  intro es
  induction es with
  | nil => intro pe h; exact Option.noConfusion h
  | cons x xs ih =>
    intro pe h hlive
    by_cases hx : x.trackId = tid
    · rw [find?_cons_pos (fun e => e.trackId = tid) x xs (decide_eq_true hx)] at h
      injection h with h
      have hxlive : x.payload.isSome = true := by rw [h]; exact hlive
      simp only [plSetPayloadL, if_pos hx, List.map_cons]
      simp [entrySkel, hxlive]
    · rw [find?_cons_neg (fun e => e.trackId = tid) x xs (decide_eq_false hx)] at h
      simp only [plSetPayloadL, if_neg hx, List.map_cons]
      rw [ih pe h hlive]

theorem UpdateDaughterInformation_skel (pl : ParticleList) (t : Int) :
    plSkel (UpdateDaughterInformation pl t) = plSkel pl := by
  unfold UpdateDaughterInformation
  cases hm : GetMotherOf pl t with
  | none => rfl
  | some parentID =>
    dsimp only
    by_cases hle : parentID ≤ 0
    · rw [if_pos hle]
    · rw [if_neg hle]
      cases hf : plFind pl parentID with
      | none => rfl
      | some pe =>
        dsimp only
        cases hpay : pe.payload with
        | none => rfl
        | some parent =>
          have hlive : pe.payload.isSome = true := by rw [hpay]; rfl
          exact plSetPayloadL_skel parentID _ pl.entries pe hf hlive

theorem daughtersOf_mono (pl : ParticleList) (t m x : Int)
    (h : x ∈ daughtersOf pl m) : x ∈ daughtersOf (UpdateDaughterInformation pl t) m := by
  unfold UpdateDaughterInformation
  cases hmo : GetMotherOf pl t with
  | none => exact h
  | some parentID =>
    dsimp only
    by_cases hle : parentID ≤ 0
    · rw [if_pos hle]; exact h
    · rw [if_neg hle]
      cases hf : plFind pl parentID with
      | none => exact h
      | some pe =>
        dsimp only
        cases hpay : pe.payload with
        | none => exact h
        | some parent =>
          dsimp only
          by_cases hmp : m = parentID
          · subst hmp
            unfold daughtersOf at h
            rw [hf] at h
            dsimp only at h
            rw [hpay] at h
            unfold daughtersOf plFind plSetPayload
            rw [find?_plSetPayloadL_self m _ pl.entries pe hf]
            exact List.mem_append_left _ h
          · unfold daughtersOf plFind plSetPayload
            rw [find?_plSetPayloadL_ne parentID m _ hmp pl.entries]
            exact h

theorem UpdateDaughterInformation_adds (pl : ParticleList) (t m : Int) (me : PLEntry)
    (parent : MCParticle)
    (hm : GetMotherOf pl t = some m) (hpos : 0 < m)
    (hf : plFind pl m = some me) (hpay : me.payload = some parent) :
    t ∈ daughtersOf (UpdateDaughterInformation pl t) m := by
  unfold UpdateDaughterInformation
  rw [hm]
  dsimp only
  rw [if_neg (not_le.mpr hpos), hf]
  dsimp only
  rw [hpay]
  unfold daughtersOf plFind plSetPayload
  rw [find?_plSetPayloadL_self m _ pl.entries me hf]
  exact List.mem_append_right _ (List.mem_singleton.mpr rfl)

theorem find?_map_skel (t : Int) :
    ∀ es : List PLEntry,
      (es.find? (fun e => e.trackId = t)).map entrySkel
        = (es.map entrySkel).find? (fun s => s.1 = t) := by
  intro es
  induction es with
  | nil => rfl
  | cons x xs ih =>
    by_cases hx : x.trackId = t
    · rw [find?_cons_pos (fun e => e.trackId = t) x xs (decide_eq_true hx), List.map_cons,
        find?_cons_pos (fun s => s.1 = t) (entrySkel x) _
          (decide_eq_true (show (entrySkel x).1 = t from hx))]
      rfl
    · rw [find?_cons_neg (fun e => e.trackId = t) x xs (decide_eq_false hx), List.map_cons,
        find?_cons_neg (fun s => s.1 = t) (entrySkel x) _
          (decide_eq_false (show ¬ (entrySkel x).1 = t from hx))]
      exact ih

theorem plFind_skel_eq {a b : ParticleList} (hsk : plSkel a = plSkel b) (t : Int) :
    (plFind a t).map entrySkel = (plFind b t).map entrySkel := by
  unfold plFind
  rw [find?_map_skel, find?_map_skel]
  unfold plSkel at hsk
  rw [hsk]

theorem GetMotherOf_skel_eq {a b : ParticleList} (hsk : plSkel a = plSkel b) (t : Int) :
    GetMotherOf a t = GetMotherOf b t := by
  unfold GetMotherOf
  have h := plFind_skel_eq hsk t
  have ha : (plFind a t).map (·.motherId)
      = ((plFind a t).map entrySkel).map (fun s => s.2.1) := by
    cases plFind a t <;> rfl
  have hb : (plFind b t).map (·.motherId)
      = ((plFind b t).map entrySkel).map (fun s => s.2.1) := by
    cases plFind b t <;> rfl
  rw [ha, hb, h]

theorem foldl_Update_skel (ts : List Int) :
    ∀ acc : ParticleList,
      plSkel (ts.foldl UpdateDaughterInformation acc) = plSkel acc := by
  induction ts with
  | nil => intro acc; rfl
  | cons t ts ih =>
    intro acc
    rw [List.foldl_cons, ih, UpdateDaughterInformation_skel]

theorem foldl_Update_mono (ts : List Int) :
    ∀ (acc : ParticleList) (m x : Int),
      x ∈ daughtersOf acc m → x ∈ daughtersOf (ts.foldl UpdateDaughterInformation acc) m := by
  induction ts with
  | nil => intro acc m x h; exact h
  | cons t ts ih =>
    intro acc m x h
    rw [List.foldl_cons]
    exact ih _ m x (daughtersOf_mono acc t m x h)

theorem fold_daughter_mem (pl : ParticleList) :
    ∀ (ts : List Int) (acc : ParticleList), plSkel acc = plSkel pl →
      ∀ (t m : Int) (me : PLEntry), t ∈ ts →
        GetMotherOf pl t = some m → 0 < m →
        plFind pl m = some me → me.payload.isSome = true →
        t ∈ daughtersOf (ts.foldl UpdateDaughterInformation acc) m := by
  intro ts
  induction ts with
  | nil => intro acc _ t m me ht; exact absurd ht (List.not_mem_nil t)
  | cons t₀ ts ih =>
    intro acc hsk t m me ht hm hpos hf hlive
    have hsk' : plSkel (UpdateDaughterInformation acc t₀) = plSkel pl := by
      rw [UpdateDaughterInformation_skel]; exact hsk
    rcases List.mem_cons.mp ht with he | hts
    · subst he
      have hmacc : GetMotherOf acc t = some m := by
        rw [GetMotherOf_skel_eq hsk t]; exact hm
      have hfacc : (plFind acc m).map entrySkel = some (entrySkel me) := by
        rw [plFind_skel_eq hsk m, hf]; rfl
      obtain ⟨me', hfme', hskme⟩ : ∃ me', plFind acc m = some me'
          ∧ entrySkel me' = entrySkel me := by
        cases hfa : plFind acc m with
        | none => rw [hfa] at hfacc; exact Option.noConfusion hfacc
        | some me' =>
          rw [hfa] at hfacc
          injection hfacc with hfacc
          exact ⟨me', rfl, hfacc⟩
      have hlive' : me'.payload.isSome = true := by
        have h3 : (entrySkel me').2.2 = (entrySkel me).2.2 := by rw [hskme]
        simpa [entrySkel, hlive] using h3
      obtain ⟨parent, hpar⟩ := Option.isSome_iff_exists.mp hlive'
      rw [List.foldl_cons]
      exact foldl_Update_mono ts _ m t
        (UpdateDaughterInformation_adds acc t m me' parent hmacc hpos hfme' hpar)
    · rw [List.foldl_cons]
      exact ih _ hsk' t m me hts hm hpos hf hlive

/-- C8: after the daughter-linking pass, every registry particle whose
registry mother id is positive and designates a live (kept) registry entry
appears in that mother's daughter set; and one linking step on a particle
whose mother id is non-positive, or whose mother is absent from the
registry, or whose mother is archived, returns the registry unchanged — no
daughter entry is added anywhere and the pass always completes (it is a
total fold). -/
theorem daughter_linking_correct :
    (∀ (pl : ParticleList) (t m : Int) (te me : PLEntry),
      plFind pl t = some te → te.motherId = m → 0 < m →
      plFind pl m = some me → me.payload.isSome = true →
      t ∈ daughtersOf (linkDaughters pl) m) ∧
    (∀ (pl : ParticleList) (t m : Int), GetMotherOf pl t = some m → m ≤ 0 →
      UpdateDaughterInformation pl t = pl) ∧
    (∀ (pl : ParticleList) (t m : Int), GetMotherOf pl t = some m → plFind pl m = none →
      UpdateDaughterInformation pl t = pl) ∧
    (∀ (pl : ParticleList) (t m : Int) (me : PLEntry), GetMotherOf pl t = some m → 0 < m →
      plFind pl m = some me → me.payload = none →
      UpdateDaughterInformation pl t = pl) := by
  refine ⟨?_, ?_, ?_, ?_⟩
  · intro pl t m te me hft hmid hpos hfm hlive
    have hft' : pl.entries.find? (fun e => e.trackId = t) = some te := hft
    have hpred := List.find?_some hft'
    have htid : te.trackId = t := of_decide_eq_true hpred
    have hmem : t ∈ plTrackIds pl := by
      unfold plTrackIds
      exact htid ▸ List.mem_map_of_mem _ (List.mem_of_find?_eq_some hft')
    have hmo : GetMotherOf pl t = some m := by
      unfold GetMotherOf
      rw [hft]
      simp [hmid]
    exact fold_daughter_mem pl (plTrackIds pl) pl rfl t m me hmem hmo hpos hfm hlive
  · intro pl t m hm hle
    unfold UpdateDaughterInformation
    rw [hm]
    dsimp only
    rw [if_pos hle]
  · intro pl t m hm hf
    unfold UpdateDaughterInformation
    rw [hm]
    dsimp only
    by_cases hle : m ≤ 0
    · rw [if_pos hle]
    · rw [if_neg hle, hf]
  · intro pl t m me hm hpos hf hpay
    unfold UpdateDaughterInformation
    rw [hm]
    dsimp only
    rw [if_neg (not_le.mpr hpos), hf]
    dsimp only
    rw [hpay]

/-- Concrete registry for the linking witness: kept primary 1 and its kept
daughter 2. -/
def plW : ParticleList :=
  ⟨[⟨1, 0, some (mkMCParticle 1 13 "primary" 0 0 (0, 0, 0))⟩,
    ⟨2, 1, some (mkMCParticle 2 11 "Decay" 1 0 (0, 0, 0))⟩]⟩

/-- C8 witness: in the concrete registry, particle 2 with kept mother 1
lands in 1's daughter set after the pass, and a linking step on the primary
(mother id 0) leaves the registry unchanged. -/
theorem daughter_linking_correct_witness :
    (0 : Int) < 1 ∧
      (2 : Int) ∈ daughtersOf (linkDaughters plW) 1 ∧
      UpdateDaughterInformation plW 1 = plW :=
  ⟨by decide,
    daughter_linking_correct.1 plW 2 1
      ⟨2, 1, some (mkMCParticle 2 11 "Decay" 1 0 (0, 0, 0))⟩
      ⟨1, 0, some (mkMCParticle 1 13 "primary" 0 0 (0, 0, 0))⟩
      (by decide) (by decide) (by decide) (by decide) (by decide),
    daughter_linking_correct.2.1 plW 1 0 (by decide) (by decide)⟩

end Larg4
